import Mathlib

/-!
Verification of the adaptive partitioning sampler (decision-tree active
learner) of `nfvtcp/decisiontree.py`.

The Python module is shallowly embedded over `ℚ`:
* numpy float arrays become `List ℚ` / `List (List ℚ)` (a 2-D array is the
  list of its rows);
* a parameter dictionary (ordered `dict` mapping parameter name to the list
  of legal values) becomes an association list `List (String × List ℚ)`;
  the `params` attribute of a node (one dict per VNF/component) becomes
  `List (List (String × List ℚ))`;
* `np.mean` of an empty array (a NaN in numpy) is modelled by total division,
  `x / 0 = 0`, which never occurs on the inputs the verified statements are
  about;
* the fatal `log_error` path (which calls `exit(1)`) is modelled by
  `Except.error`.

Definitions are named after the Python methods they embed (leading
underscores dropped, since Lean reserves them).
-/

/-- Embeds `np.mean` on 1-D arrays: sum divided by length (`0` on `[]`). -/
def np_mean (l : List ℚ) : ℚ := l.sum / (l.length : ℚ)

/-- Sum of squared deviations of a list from a fixed centre `c`.
Helper used to reason about `calculate_partition_error`. -/
def sum_sq_dev (l : List ℚ) (c : ℚ) : ℚ := (l.map (fun x => (x - c) ^ 2)).sum

/-- Embeds `DecisionTree._calculate_partition_error` for the `'mse'` metric:
`np.mean((target - np.mean(target)) ** 2.0)`. -/
def calculate_partition_error (target : List ℚ) : ℚ :=
  np_mean (target.map (fun x => (x - np_mean target) ^ 2))

/-- Embeds `DecisionTree._get_after_split_error`: weighted sum of the two
child errors, where the left weight is `left.length / sample_count` and the
right weight is `1 -` the left weight (as in the source). -/
def get_after_split_error (left_target right_target : List ℚ) (sample_count : ℕ) : ℚ :=
  let error_left_partition := calculate_partition_error left_target
  let error_right_partition := calculate_partition_error right_target
  let left_percentage : ℚ := (left_target.length : ℚ) / (sample_count : ℚ)
  let right_percentage : ℚ := 1 - left_percentage
  left_percentage * error_left_partition + right_percentage * error_right_partition

/-- Embeds the body of `Node.calculate_partition_size`: the nested loop
`for dict in p: for key in dict.keys(): res *= len(dict.get(key))`. -/
def partitionProduct (params : List (List (String × List ℚ))) : ℚ :=
  params.foldl (fun res d => d.foldl (fun r kv => r * (kv.2.length : ℚ)) res) 1

/-- Embeds the fields of the Python `Node` object (axis-aligned tree).
The `left`/`right` child pointers are omitted: no verified statement
references them, and they would make the structure recursive.  Fields that
Python initialises to `None` are `Option`-valued. -/
structure Node where
  parameters : List (List (String × List ℚ))
  features : List (List ℚ)
  target : List ℚ
  depth : ℕ
  idx : ℕ
  split_feature_index : Option ℕ
  split_feature_cut_val : Option ℚ
  split_improvement : ℚ
  pred_value : Option ℚ
  error : Option ℚ
  partition_size : Option ℚ
  score : Option ℚ
  deriving DecidableEq, Repr

/-- Embeds `Node.calculate_partition_size`: recompute `partition_size` from
the node's current `parameters`. -/
def Node.calculate_partition_size (n : Node) : Node :=
  { n with partition_size := some (partitionProduct n.parameters) }

/-- Embeds `Node.calculate_score`.  `config_size` is the current value of the
class-wide field `Node._config_size`, passed explicitly.  Python reads
`self.error` (crashing if it were still `None`); the embedding reads
`n.error.getD 0`, and every statement about it assumes `n.error = some e`. -/
def Node.calculate_score (n : Node) (weight_size config_size : ℚ) : Node :=
  let n1 := n.calculate_partition_size
  let weight_error := 1 - weight_size
  let t := weight_error * n1.error.getD 0 + weight_size * (n1.partition_size.getD 0 / config_size)
  { n1 with score := some ((-1) * t) }

/-- Sorted duplicate removal: collapses equal adjacent elements of an
(ascending-sorted) list.  Second half of the `np.unique` embedding. -/
def dedupSorted : List ℚ → List ℚ
  | [] => []
  | [x] => [x]
  | x :: y :: rest => if x = y then dedupSorted (y :: rest) else x :: dedupSorted (y :: rest)

/-- Embeds `np.unique`: the ascending-sorted list of distinct values. -/
def np_unique (l : List ℚ) : List ℚ := dedupSorted (List.insertionSort (· ≤ ·) l)

/-- The column `features[:, feature_idx]` of a 2-D array. -/
def featureColumn (features : List (List ℚ)) (feature_idx : ℕ) : List ℚ :=
  features.map (fun row => row.getD feature_idx 0)

/-- Embeds `DecisionTree._get_possible_splits`:
`(feature_vals[:-1] + feature_vals[1:]) / 2.0` over the distinct sorted
column values. -/
def get_possible_splits (features : List (List ℚ)) (feature_idx : ℕ) : List ℚ :=
  let feature_vals := np_unique (featureColumn features feature_idx)
  List.zipWith (fun a b => (a + b) / 2) feature_vals.dropLast feature_vals.tail

/-- The midpoints between consecutive elements of a list, written as a
direct recursion; used to characterise `get_possible_splits`. -/
def midpoints : List ℚ → List ℚ
  | a :: b :: rest => (a + b) / 2 :: midpoints (b :: rest)
  | _ => []

/-- First (in list order) pair with minimal second component; embeds
`min(split_error.items(), key=lambda x: x[1])` over the insertion-ordered
dict (Python's `min` keeps the earliest minimum). -/
def argminBySnd : List (ℚ × ℚ) → ℚ × ℚ
  | [] => (-1, -1)
  | [p] => p
  | p :: q :: rest =>
    let m := argminBySnd (q :: rest)
    if p.2 ≤ m.2 then p else m

/-- Index and value of the first pair with minimal second component; embeds
`min(enumerate(splits), key=lambda x: x[1][1])`. -/
def argminEnumBySnd : List (ℚ × ℚ) → ℕ × (ℚ × ℚ)
  | [] => (0, (-1, -1))
  | [p] => (0, p)
  | p :: q :: rest =>
    let jm := argminEnumBySnd (q :: rest)
    if p.2 ≤ jm.2.2 then (0, p) else (jm.1 + 1, jm.2)

/-- Embeds `DecisionTree._get_best_split_of_feature`: the `(cut, error)`
pair with minimal error over all candidate cuts of one column, or the
sentinel `(-1, -1)` when no split is possible.  The left/right partitions
are the boolean-mask selections `target[features[:, idx] <= cut]` and
`target[features[:, idx] > cut]`, and `sample_count = features.shape[0]`. -/
def get_best_split_of_feature (features : List (List ℚ)) (target : List ℚ)
    (feature_idx : ℕ) : ℚ × ℚ :=
  let split_vals := get_possible_splits features feature_idx
  if split_vals.isEmpty then (-1, -1)
  else
    argminBySnd (split_vals.map (fun cut =>
      (cut,
        get_after_split_error
          (((features.zip target).filter
              (fun rt => decide (rt.1.getD feature_idx 0 ≤ cut))).map Prod.snd)
          (((features.zip target).filter
              (fun rt => decide (cut < rt.1.getD feature_idx 0))).map Prod.snd)
          features.length)))

/-- The running best-split state of a node inside
`DecisionTree._determine_best_split_of_node` (fields initialised by
`Node.__init__` to `0` / `None` / `None`). -/
structure SplitState where
  split_improvement : ℚ
  split_feature_index : Option ℕ
  split_feature_cut_val : Option ℚ
  deriving DecidableEq, Repr

/-- Embeds one iteration of the `for col in range(feature_count)` loop of
`DecisionTree._determine_best_split_of_node`: a `(-1, -1)` result is
skipped (`continue`), otherwise the state is updated when the improvement
over the node error strictly exceeds the best so far.  `node.error` is the
partition error of `target` at every call site. -/
def determine_best_split_step (features : List (List ℚ)) (target : List ℚ)
    (st : SplitState) (col : ℕ) : SplitState :=
  let node_error := calculate_partition_error target
  let cs := get_best_split_of_feature features target col
  if cs.1 = -1 ∧ cs.2 = -1 then st
  else
    let error_improvement := node_error - cs.2
    if st.split_improvement < error_improvement then
      { split_improvement := error_improvement
        split_feature_index := some col
        split_feature_cut_val := some cs.1 }
    else st

/-- Embeds `DecisionTree._determine_best_split_of_node`: fold the per-column
step over all feature columns. -/
def determine_best_split_of_node (features : List (List ℚ)) (target : List ℚ) : SplitState :=
  let feature_count := (features.headD []).length
  (List.range feature_count).foldl (determine_best_split_step features target)
    ⟨0, none, none⟩

/-- Embeds `DecisionTree._split_samples` (axis-aligned): the four boolean-mask
selections, returned in the source order
`(left_f, left_t, right_f, right_t)`. -/
def split_samples (features : List (List ℚ)) (target : List ℚ)
    (feature_idx : ℕ) (cut_val : ℚ) :
    List (List ℚ) × List ℚ × List (List ℚ) × List ℚ :=
  let rows := features.zip target
  (((rows.filter (fun rt => decide (rt.1.getD feature_idx 0 ≤ cut_val))).map Prod.fst),
   ((rows.filter (fun rt => decide (rt.1.getD feature_idx 0 ≤ cut_val))).map Prod.snd),
   ((rows.filter (fun rt => decide (cut_val < rt.1.getD feature_idx 0))).map Prod.fst),
   ((rows.filter (fun rt => decide (cut_val < rt.1.getD feature_idx 0))).map Prod.snd))

/-- Embeds `ObliqueDecisionTree._check_config_position`:
`np.sum(np.multiply(row, split_vector[:-1])) - split_vector[-1]`. -/
def check_config_position (row split_vector : List ℚ) : ℚ :=
  (List.zipWith (· * ·) row split_vector.dropLast).sum - split_vector.getLastD 0

/-- Embeds `ObliqueDecisionTree._split_samples`: every sample row goes above
the hyperplane when its position is `> 0`, below otherwise; the result is
`(below_f, above_f, below_t, above_t)` in source order (the numpy
zeros-row/`vstack`/`delete` bookkeeping preserves the row order and is
modelled directly by filters). -/
def oblique_split_samples (features : List (List ℚ)) (target : List ℚ)
    (split_vector : List ℚ) :
    List (List ℚ) × List (List ℚ) × List ℚ × List ℚ :=
  let samples := features.zip target
  let samples_above := samples.filter (fun rt => decide (0 < check_config_position rt.1 split_vector))
  let samples_below := samples.filter (fun rt => !(decide (0 < check_config_position rt.1 split_vector)))
  (samples_below.map Prod.fst, samples_above.map Prod.fst,
   samples_below.map Prod.snd, samples_above.map Prod.snd)

/-- Embeds `ObliqueDecisionTree._get_best_splits_for_all_features`: the
per-feature best `(cut, error)` pairs, sentinel `(-1, -1)` included. -/
def get_best_splits_for_all_features (features : List (List ℚ)) (target : List ℚ) :
    List (ℚ × ℚ) :=
  (List.range ((features.headD []).length)).map
    (fun i => get_best_split_of_feature features target i)

/-- Embeds the deterministic seed part of
`ObliqueDecisionTree._determine_best_split_of_node` (before the random
perturbation rounds): `split_vector = zeros(feature_count + 1)`,
`split_vector[-1] = split_tuple[0]`, `split_vector[index] = 1`, where
`index, split_tuple = min(enumerate(splits), key=lambda x: x[1][1])`. -/
def seed_split_vector (features : List (List ℚ)) (target : List ℚ) : List ℚ :=
  let feature_count := (features.headD []).length
  let splits := get_best_splits_for_all_features features target
  let im := argminEnumBySnd splits
  (List.range (feature_count + 1)).map (fun j =>
    if j = im.1 then 1 else if j = feature_count then im.2.1 else 0)

/-- Embeds the evaluation of one candidate substitution inside the `for cut
in possible_cuts` loop of
`ObliqueDecisionTree._perturb_hyperplane_coefficients`:
`new_split_vector[feature_idx] = cut`, split the samples by the new vector,
then `self._get_after_split_error(low_t, high_t, node.features.shape[1])`
— note the source passes `shape[1]` (the feature count) as the
`sample_count` argument. -/
def perturb_candidate_error (features : List (List ℚ)) (target : List ℚ)
    (split_vector : List ℚ) (feature_idx : ℕ) (cut : ℚ) : ℚ :=
  let new_split_vector := split_vector.set feature_idx cut
  let s := oblique_split_samples features target new_split_vector
  get_after_split_error s.2.2.1 s.2.2.2 ((features.headD []).length)

/-- Embeds the construction of `self.feature_idx_to_name` in
`_prepare_tree`: position `i` of the list is the `(vnf, parameter-name)`
pair of feature index `i`. -/
def feature_idx_to_name (params : List (List (String × List ℚ))) : List (ℕ × String) :=
  (List.range params.length).flatMap
    (fun vnf => (params.getD vnf []).map (fun kv => (vnf, kv.1)))

/-- Looks a key up in an embedded parameter dict (`dict.get(key)`,
defaulting to `[]`). -/
def dict_get (d : List (String × List ℚ)) (k : String) : List ℚ :=
  (((d.find? (fun kv => kv.1 == k)).map Prod.snd).getD [])

/-- Replaces the value of an existing key of an embedded parameter dict
(`d[key] = v`; insertion order of an existing key is preserved, as in
Python). -/
def dict_set (d : List (String × List ℚ)) (k : String) (v : List ℚ) :
    List (String × List ℚ) :=
  d.map (fun kv => if kv.1 == k then (kv.1, v) else kv)

/-- Embeds `ObliqueDecisionTree._calculate_new_parameters`:
`for i in range(len(params))` — the loop runs over the *component* count,
looking each `i` up in `feature_idx_to_name` and cutting that pair's value
list at `split_vector[i]` (values `<= cut` kept on the left, `> cut` on the
right).  `fmap` is the tree's `feature_idx_to_name` mapping. -/
def oblique_calculate_new_parameters (fmap : List (ℕ × String))
    (params : List (List (String × List ℚ))) (split_vector : List ℚ) :
    List (List (String × List ℚ)) × List (List (String × List ℚ)) :=
  (List.range params.length).foldl
    (fun pr i =>
      let vp := fmap.getD i (0, "")
      let values := dict_get (params.getD vp.1 []) vp.2
      let cut_value := split_vector.getD i 0
      (pr.1.set vp.1 (dict_set (pr.1.getD vp.1 []) vp.2
          (values.filter (fun v => decide (v ≤ cut_value)))),
       pr.2.set vp.1 (dict_set (pr.2.getD vp.1 []) vp.2
          (values.filter (fun v => decide (cut_value < v))))))
    (params, params)

/-- An entry of the `leaf_nodes` heap: the tuple
`(node.score, node.idx, node)` pushed by `_split_node`. -/
structure QEntry where
  score : ℚ
  idx : ℕ
  node : Node
  deriving DecidableEq, Repr

/-- Lexicographic order on the `(score, idx)` part of a heap tuple — the
order `heapq` uses (the `node` component is never compared because `idx`
values are unique). -/
def entryLE (a b : QEntry) : Bool :=
  decide (a.score < b.score) || (decide (a.score = b.score) && decide (a.idx ≤ b.idx))

/-- Embeds `heapq.heappop`: removes the `(score, idx)`-smallest entry from
the heap list, returning it together with the remaining entries. -/
def popMin : List QEntry → Option (QEntry × List QEntry)
  | [] => none
  | e :: rest =>
    match popMin rest with
    | none => some (e, [])
    | some (m, rest') => if entryLE e m then some (e, rest) else some (m, e :: rest')

/-- Embeds the validity test of `_determine_node_to_sample`:
`next_node.split_feature_index or next_node.depth == self.max_depth`.
Python truthiness makes `split_feature_index` count as set only when it is
neither `None` nor `0`. -/
def nodeStaleOrMaxDepth (max_depth : ℕ) (n : Node) : Bool :=
  (match n.split_feature_index with
   | none => false
   | some i => i != 0) || (n.depth == max_depth)

/-- The `while self.leaf_nodes and (...)` loop of
`_determine_node_to_sample`, with an explicit fuel argument.  Each loop
iteration pops exactly one entry, so fuel `= queue.length` (as supplied by
`popLoop`) never runs out before the queue does. -/
def popLoopAux (max_depth : ℕ) : ℕ → Node → List QEntry → Node × List QEntry
  | 0, cur, q => (cur, q)
  | Nat.succ fuel, cur, q =>
    if nodeStaleOrMaxDepth max_depth cur then
      match popMin q with
      | none => (cur, q)
      | some (e, rest) => popLoopAux max_depth fuel e.node rest
    else (cur, q)

/-- The discard loop of `_determine_node_to_sample`, started on the first
popped node. -/
def popLoop (max_depth : ℕ) (cur : Node) (q : List QEntry) : Node × List QEntry :=
  popLoopAux max_depth q.length cur q

/-- Embeds `DecisionTree._determine_node_to_sample` (the node-selection part
of `select_next`).  An empty heap hits `log_error`, which terminates the
process — modelled as `Except.error ()`.  Otherwise the best node is
popped, stale/max-depth nodes are lazily discarded while further entries
remain, and the final node is returned together with the remaining heap
(after the loop the source only emits a debug log when the node is still
invalid — it returns the node regardless). -/
def determine_node_to_sample (max_depth : ℕ) (leaf_nodes : List QEntry) :
    Except Unit (Node × List QEntry) :=
  match popMin leaf_nodes with
  | none => Except.error ()
  | some (e, rest) => Except.ok (popLoop max_depth e.node rest)

/-- True exactly on the `log_error` (process-exit) outcome. -/
def is_fatal : Except Unit (Node × List QEntry) → Bool
  | Except.error _ => true
  | Except.ok _ => false

/-- The caller-wide mutable state relevant to queue bookkeeping and scoring:
the class-wide `Node._config_size`, the `leaf_nodes` heap and the
`node_count` counter of the tree. -/
structure SysState where
  config_size : ℚ
  leaf_nodes : List QEntry
  node_count : ℕ
  deriving DecidableEq, Repr

/-- The index list of a heap. -/
def queueIdxs (q : List QEntry) : List ℕ := q.map QEntry.idx

/-- Embeds `Node.set_config_size`: assignment to the class-wide
`Node._config_size` field. -/
def set_config_size (s : SysState) (v : ℚ) : SysState := { s with config_size := v }

/-- Embeds the `Node._config_size` effect of `_prepare_tree` (both tree
variants): the freshly built root's partition size is written into the
class-wide field, whatever tree previously set it. -/
def prepare_tree_state (params : List (List (String × List ℚ))) (s : SysState) : SysState :=
  set_config_size s (partitionProduct params)

/-- The two heap-affecting operations of a tree, as a step relation.
`select` is a `select_next` call: it runs `_determine_node_to_sample` and
keeps the remaining heap.  `split` is a `_split_node` call (the only
`heappush` site, reached from `build_tree` or `adapt_tree` via
`_grow_tree_at_node`): it pushes exactly the two freshly created children,
whose `idx` values are `node_count` and `node_count + 1`, and advances
`node_count` by 2.  Neither operation touches `config_size`. -/
inductive SysStep (max_depth : ℕ) : SysState → SysState → Prop
  | select (s : SysState) (n : Node) (rest : List QEntry)
      (h : determine_node_to_sample max_depth s.leaf_nodes = Except.ok (n, rest)) :
      SysStep max_depth s { s with leaf_nodes := rest }
  | split (s : SysState) (ls rs : ℚ) (ln rn : Node) :
      SysStep max_depth s
        { s with
          leaf_nodes := s.leaf_nodes ++
            [⟨ls, s.node_count, { ln with idx := s.node_count }⟩,
             ⟨rs, s.node_count + 1, { rn with idx := s.node_count + 1 }⟩],
          node_count := s.node_count + 2 }

/-- Finitely many tree operations in sequence. -/
def SysSteps (max_depth : ℕ) : SysState → SysState → Prop :=
  Relation.ReflTransGen (SysStep max_depth)

/-- A leaf node sitting at depth 3 (no split descriptor); used as a
max-depth queue inhabitant. -/
def nodeMaxDepth : Node := ⟨[], [], [], 3, 1, none, none, 0, none, none, none, none⟩

/-- A node that has been split on feature index 0 (both components of its
split descriptor are set), at depth 2. -/
def nodeSplitAtZero : Node :=
  ⟨[], [], [], 2, 1, some 0, some (3/2), 0, none, some 0, none, some (-1)⟩

/-- An unsplit leaf at depth 2. -/
def nodeUnsplitLeaf : Node := ⟨[], [], [], 2, 2, none, none, 0, none, some 0, none, some 0⟩

/-- Scenario A parameter descriptor: two components, each with
`a:[1,2,3]` and `b:[32,64,256]` (partition size 81). -/
def scenarioAParams : List (List (String × List ℚ)) :=
  [[("a", [1, 2, 3]), ("b", [32, 64, 256])], [("a", [1, 2, 3]), ("b", [32, 64, 256])]]

/-- The root node of a tree built over `scenarioAParams`, with error 0. -/
def nodeRootA : Node := ⟨scenarioAParams, [], [], 1, 0, none, none, 0, none, some 0, none, none⟩

/-- A one-component descriptor with two parameters of two values each
(partition size 4). -/
def paramsOneVnfTwoKeys : List (List (String × List ℚ)) := [[("a", [1, 2]), ("b", [1, 2])]]

/-- System state right after constructing a tree over `scenarioAParams`:
`Node._config_size = 81`, empty heap, `node_count = 1`. -/
def sysStateA : SysState := ⟨81, [], 1⟩

/-- `sysStateA` after one `_split_node` (two children pushed, ids 1 and 2). -/
def sysStateA1 : SysState :=
  { sysStateA with
    leaf_nodes := sysStateA.leaf_nodes ++
      [⟨0, sysStateA.node_count, { nodeMaxDepth with idx := sysStateA.node_count }⟩,
       ⟨0, sysStateA.node_count + 1, { nodeMaxDepth with idx := sysStateA.node_count + 1 }⟩],
    node_count := sysStateA.node_count + 2 }

/-! ## Helper lemmas -/

theorem foldl_mul_len (d : List (String × List ℚ)) (a : ℚ) :
    d.foldl (fun r kv => r * (kv.2.length : ℚ)) a
      = a * (d.map (fun kv => ((kv.2.length : ℚ)))).prod := by
  induction d generalizing a with
  | nil => simp
  | cons kv d ih => simp [ih]; ring

theorem foldl_partition_outer (params : List (List (String × List ℚ))) (a : ℚ) :
    params.foldl (fun res d => d.foldl (fun r kv => r * (kv.2.length : ℚ)) res) a
      = a * (params.map (fun d => (d.map (fun kv => ((kv.2.length : ℚ)))).prod)).prod := by
  induction params generalizing a with
  | nil => simp
  | cons d params ih =>
    rw [List.foldl_cons, foldl_mul_len, ih]
    simp
    ring

theorem partitionProduct_eq_flat_prod (params : List (List (String × List ℚ))) :
    partitionProduct params
      = (params.flatMap (fun d => d.map (fun kv => ((kv.2.length : ℚ))))).prod := by
  unfold partitionProduct
  rw [foldl_partition_outer, one_mul]
  induction params with
  | nil => simp
  | cons d params ih => simp [ih]

/-! ## Claim C3 -/

/-- Claim C3: for every node with error `e` and every weight `w ∈ [0,1]`,
`calculate_score(w)` first recomputes the node's partition size as the
product of the remaining legal-value counts over all (component, parameter)
pairs of the node's current parameter ranges, and then sets
`score = -((1-w)*e + w*(partition_size / root_partition_size))`, where the
divisor is the current `Node._config_size`. -/
theorem C3_calculate_score_spec (n : Node) (e w config_size : ℚ)
    (hE : n.error = some e) (hw0 : 0 ≤ w) (hw1 : w ≤ 1) :
    (n.calculate_score w config_size).partition_size = some (partitionProduct n.parameters)
    ∧ (n.calculate_score w config_size).score =
        some (-((1 - w) * e + w * (partitionProduct n.parameters / config_size)))
    ∧ partitionProduct n.parameters
        = (n.parameters.flatMap (fun d => d.map (fun kv => ((kv.2.length : ℚ))))).prod := by
  refine ⟨rfl, ?_, partitionProduct_eq_flat_prod n.parameters⟩
  simp [Node.calculate_score, Node.calculate_partition_size, hE, neg_one_mul]

/-- Witness for C3 at the Scenario-A root node, `e = 0`, `w = 1/5`,
`config_size = 81`. -/
theorem C3_calculate_score_spec_witness :
    (nodeRootA.calculate_score (1/5) 81).partition_size
        = some (partitionProduct nodeRootA.parameters)
    ∧ (nodeRootA.calculate_score (1/5) 81).score =
        some (-((1 - 1/5) * 0 + (1/5) * (partitionProduct nodeRootA.parameters / 81)))
    ∧ partitionProduct nodeRootA.parameters
        = (nodeRootA.parameters.flatMap (fun d => d.map (fun kv => ((kv.2.length : ℚ))))).prod :=
  C3_calculate_score_spec nodeRootA 0 (1/5) 81 rfl (by norm_num) (by norm_num)

/-! ## Claim C5 -/

/-- Claim C5 (evaluation at the failing input): on the node with features
`[[1,1],[1,2]]` and targets `[0,1]`, feature 0 has a single distinct value
and returns the sentinel `(-1,-1)`, feature 1 is the only feature with an
axis-aligned split (cut `3/2`, post-split error `0`) — yet the seed split
vector is `[1, 0, -1]`: its nonzero coefficient sits at the non-splittable
feature 0 and the offset is the sentinel `-1`, because the seed minimises
over the raw tuples where the sentinel error `-1` undercuts every real
error. -/
theorem C5_seed_sentinel_eval :
    get_best_split_of_feature [[1, 1], [1, 2]] [0, 1] 0 = (-1, -1)
    ∧ get_best_split_of_feature [[1, 1], [1, 2]] [0, 1] 1 = (3/2, 0)
    ∧ get_best_splits_for_all_features [[1, 1], [1, 2]] [0, 1] = [(-1, -1), (3/2, 0)]
    ∧ seed_split_vector [[1, 1], [1, 2]] [0, 1] = [1, 0, -1] := by
  refine ⟨by rfl, ?_, ?_, ?_⟩ <;>
    norm_num [seed_split_vector, get_best_splits_for_all_features, get_best_split_of_feature,
      get_possible_splits, np_unique, featureColumn, dedupSorted, List.insertionSort,
      List.orderedInsert, argminBySnd, argminEnumBySnd, get_after_split_error,
      calculate_partition_error, np_mean, List.filter, List.range, List.range.loop]

/-! ## Claim C6 -/

/-- Claim C6 (evaluation at the failing input): during oblique refinement
the candidate error divides by `features.shape[1]` (the feature count), not
by the node's sample count.  With 3 samples and 2 features, split vector
`[1, 0, 3/2]` and candidate cut `1` at coordinate 0, the children are
`[0]` / `[0, 6]`; the code computes `(1/2)*0 + (1/2)*9 = 9/2`, while the
sample-count weighting of the claim gives `(1/3)*0 + (2/3)*9 = 6`. -/
theorem C6_perturb_weight_eval :
    oblique_split_samples [[1, 0], [2, 0], [3, 0]] [0, 0, 6] [1, 0, 3/2]
      = ([[1, 0]], [[2, 0], [3, 0]], [0], [0, 6])
    ∧ perturb_candidate_error [[1, 0], [2, 0], [3, 0]] [0, 0, 6] [1, 0, 3/2] 0 1 = 9/2
    ∧ get_after_split_error [0] [0, 6] 3 = 6
    ∧ (9/2 : ℚ) ≠ 6 := by
  refine ⟨?_, ?_, ?_, by norm_num⟩ <;>
    norm_num [perturb_candidate_error, oblique_split_samples, check_config_position,
      List.filter, get_after_split_error, calculate_partition_error, np_mean]

/-! ## Claim C8 -/

/-- Claim C8 (evaluation at the failing input): the oblique
`_calculate_new_parameters` iterates `range(len(params))` — the component
count — so with one component owning two parameters only feature 0 (`"a"`)
is narrowed; parameter `"b"` keeps its full value list `[1, 2]` in *both*
children, although the claim requires every (component, parameter) pair to
be cut at its own coefficient's threshold. -/
theorem C8_narrowing_skips_pairs_eval :
    feature_idx_to_name paramsOneVnfTwoKeys = [(0, "a"), (0, "b")]
    ∧ oblique_calculate_new_parameters (feature_idx_to_name paramsOneVnfTwoKeys)
        paramsOneVnfTwoKeys [3/2, 3/2, 0]
      = ([[("a", [1]), ("b", [1, 2])]], [[("a", [2]), ("b", [1, 2])]]) := by
  refine ⟨by rfl, ?_⟩
  norm_num [oblique_calculate_new_parameters, feature_idx_to_name, paramsOneVnfTwoKeys,
    dict_get, dict_set, List.filter, List.range, List.range.loop]
  decide

/-! ## Claim C9 -/

/-- Claim C9 (counterexample): `Node._config_size` is a class-wide field.
With the Scenario-A tree live (`config_size = 81`), constructing a second
tree over a 4-configuration space overwrites the divisor, and the
Scenario-A root's score (weight 1) changes from `-1` to `-81/4`. -/
theorem C9_shared_config_size_cex :
    sysStateA.config_size = 81
    ∧ (prepare_tree_state paramsOneVnfTwoKeys sysStateA).config_size = 4
    ∧ (nodeRootA.calculate_score 1
          ((prepare_tree_state paramsOneVnfTwoKeys sysStateA).config_size)).score
        ≠ (nodeRootA.calculate_score 1 sysStateA.config_size).score := by
  refine ⟨by rfl, ?_, ?_⟩ <;>
    norm_num [Node.calculate_score, Node.calculate_partition_size, prepare_tree_state,
      set_config_size, partitionProduct, paramsOneVnfTwoKeys, nodeRootA, scenarioAParams,
      sysStateA]

/-- Claim C9 (amended): the divisor is written only by tree construction —
no `select_next` / `adapt` / growth step of a tree ever changes
`Node._config_size`, and constructing a tree sets it to that tree's root
partition size (overwriting whatever an existing tree had stored there). -/
theorem C9_config_size_frame (max_depth : ℕ) (s s' : SysState)
    (params : List (List (String × List ℚ))) (h : SysSteps max_depth s s') :
    s'.config_size = s.config_size
    ∧ (prepare_tree_state params s').config_size = partitionProduct params := by
  refine ⟨?_, rfl⟩
  induction h with
  | refl => rfl
  | tail _ hstep ih =>
    cases hstep with
    | select n rest h => simpa using ih
    | split ls rs ln rn => simpa using ih

/-- Witness for C9: one `_split_node` step on the Scenario-A state leaves
`config_size` at 81, while constructing the 4-configuration tree afterwards
sets it to `partitionProduct paramsOneVnfTwoKeys`. -/
theorem C9_config_size_frame_witness :
    sysStateA1.config_size = sysStateA.config_size
    ∧ (prepare_tree_state paramsOneVnfTwoKeys sysStateA1).config_size
        = partitionProduct paramsOneVnfTwoKeys :=
  C9_config_size_frame 5 sysStateA sysStateA1 paramsOneVnfTwoKeys
    (Relation.ReflTransGen.single (SysStep.split sysStateA 0 0 nodeMaxDepth nodeMaxDepth))

/-! ## Claim C1 -/

theorem popMin_cons_ne_none (e : QEntry) (rest : List QEntry) :
    popMin (e :: rest) ≠ none := by
  unfold popMin
  cases popMin rest with
  | none => simp
  | some mr =>
    cases mr with
    | mk m rest2 => dsimp; split <;> simp

/-- Claim C1 (counterexample): with the heap holding exactly one entry,
whose node sits at max depth (so the queue holds no valid candidate), the
node selection of `select_next` is not fatal — the invalid node itself is
returned, and a configuration would be drawn from it. -/
theorem C1_invalid_queue_not_fatal_cex :
    nodeStaleOrMaxDepth 3 nodeMaxDepth = true
    ∧ is_fatal (determine_node_to_sample 3 [⟨0, 1, nodeMaxDepth⟩]) = false
    ∧ determine_node_to_sample 3 [⟨0, 1, nodeMaxDepth⟩] = Except.ok (nodeMaxDepth, []) :=
  ⟨rfl, rfl, rfl⟩

/-- Claim C1 (amended): the call is fatal exactly when the active queue is
empty at call time; a non-empty queue always produces a returned node, even
when every remaining entry is already split or at max depth. -/
theorem C1_fatal_iff_empty_queue (max_depth : ℕ) (q : List QEntry) :
    is_fatal (determine_node_to_sample max_depth q) = q.isEmpty := by
  cases q with
  | nil => rfl
  | cons e rest =>
    cases hp : popMin (e :: rest) with
    | none => exact absurd hp (popMin_cons_ne_none e rest)
    | some er => simp [determine_node_to_sample, hp, is_fatal]

/-! ## Claim C2 -/

/-- Claim C2 (evaluation at the failing input): `nodeSplitAtZero` has its
split descriptor fully set (feature index 0, cut `3/2`), so the claim
requires it to be discarded; but the Python truthiness test
`next_node.split_feature_index or ...` treats feature index `0` as unset,
so with heap entries `(-1, 1, nodeSplitAtZero)` and `(0, 2,
nodeUnsplitLeaf)` (max depth 5) the already-split node is returned as the
outstanding selection although an unsplit leaf below max depth is queued. -/
theorem C2_truthiness_split_zero_eval :
    nodeSplitAtZero.split_feature_index = some 0
    ∧ nodeSplitAtZero.split_feature_cut_val = some (3/2)
    ∧ nodeStaleOrMaxDepth 5 nodeSplitAtZero = false
    ∧ nodeUnsplitLeaf.split_feature_index = none
    ∧ nodeUnsplitLeaf.depth = 2
    ∧ determine_node_to_sample 5 [⟨-1, 1, nodeSplitAtZero⟩, ⟨0, 2, nodeUnsplitLeaf⟩]
        = Except.ok (nodeSplitAtZero, [⟨0, 2, nodeUnsplitLeaf⟩]) :=
  ⟨rfl, rfl, rfl, rfl, rfl, rfl⟩

/-! ## Claim C4 -/

theorem mem_dedupSorted (l : List ℚ) (x : ℚ) : x ∈ dedupSorted l ↔ x ∈ l := by
  induction l with
  | nil => simp [dedupSorted]
  | cons a l ih =>
    cases l with
    | nil => simp [dedupSorted]
    | cons b rest =>
      by_cases hab : a = b
      · subst hab
        have hd : dedupSorted (a :: a :: rest) = dedupSorted (a :: rest) := by
          simp [dedupSorted]
        rw [hd, ih]
        simp only [List.mem_cons]
        tauto
      · simp only [dedupSorted, if_neg hab]
        simp [List.mem_cons, ih]

theorem sorted_lt_dedupSorted (l : List ℚ) (h : l.Sorted (· ≤ ·)) :
    (dedupSorted l).Sorted (· < ·) := by
  induction l with
  | nil => simp [dedupSorted]
  | cons a l ih =>
    cases l with
    | nil => simp [dedupSorted]
    | cons b rest =>
      rw [List.sorted_cons] at h
      obtain ⟨hle, htail⟩ := h
      by_cases hab : a = b
      · subst hab
        simpa [dedupSorted] using ih htail
      · have hab' : a < b := lt_of_le_of_ne (hle b (by simp)) hab
        simp only [dedupSorted, if_neg hab]
        rw [List.sorted_cons]
        refine ⟨?_, ih htail⟩
        intro y hy
        rw [mem_dedupSorted] at hy
        rcases List.mem_cons.mp hy with hyb | hyr
        · exact hyb ▸ hab'
        · exact lt_of_lt_of_le hab' ((List.sorted_cons.mp htail).1 y hyr)

theorem zipWith_dropLast_tail_eq_midpoints (u : List ℚ) :
    List.zipWith (fun a b => (a + b) / 2) u.dropLast u.tail = midpoints u := by
  induction u with
  | nil => rfl
  | cons a u ih =>
    cases u with
    | nil => rfl
    | cons b rest =>
      simpa [midpoints] using ih

theorem midpoints_eq_nil_of_short (u : List ℚ) (h : u.length < 2) : midpoints u = [] := by
  cases u with
  | nil => rfl
  | cons a u =>
    cases u with
    | nil => rfl
    | cons b rest => simp at h; omega

/-- Claim C4: for every feature column, the candidate cut points are exactly
the midpoints between consecutive sorted distinct observed values of the
column (`np_unique` of the column is `<`-sorted and carries precisely the
observed values), and a column with fewer than two distinct values yields
no candidate, makes `_get_best_split_of_feature` return the `(-1, -1)`
sentinel, and is skipped by the best-split loop without touching the
running state (no error raised). -/
theorem C4_candidate_cuts_spec (features : List (List ℚ)) (target : List ℚ)
    (feature_idx : ℕ) (st : SplitState) :
    (np_unique (featureColumn features feature_idx)).Sorted (· < ·)
    ∧ (∀ x : ℚ, x ∈ np_unique (featureColumn features feature_idx)
        ↔ x ∈ featureColumn features feature_idx)
    ∧ get_possible_splits features feature_idx
        = midpoints (np_unique (featureColumn features feature_idx))
    ∧ ((np_unique (featureColumn features feature_idx)).length < 2 →
        get_possible_splits features feature_idx = []
        ∧ get_best_split_of_feature features target feature_idx = (-1, -1)
        ∧ determine_best_split_step features target st feature_idx = st) := by
  have hmid : get_possible_splits features feature_idx
      = midpoints (np_unique (featureColumn features feature_idx)) :=
    zipWith_dropLast_tail_eq_midpoints _
  refine ⟨sorted_lt_dedupSorted _ (List.sorted_insertionSort _ _), ?_, hmid, ?_⟩
  · intro x
    rw [np_unique, mem_dedupSorted]
    exact (List.perm_insertionSort _ _).mem_iff
  · intro hshort
    have hnil : get_possible_splits features feature_idx = [] := by
      rw [hmid, midpoints_eq_nil_of_short _ hshort]
    have hbest : get_best_split_of_feature features target feature_idx = (-1, -1) := by
      rw [get_best_split_of_feature, hnil]
      rfl
    refine ⟨hnil, hbest, ?_⟩
    rw [determine_best_split_step, hbest]
    simp

/-- Witness for C4 at a constant single column (`[[1],[1]]`, targets
`[0,1]`): one distinct value, so no candidate, the sentinel is returned and
the search state is left untouched. -/
theorem C4_candidate_cuts_spec_witness :
    (np_unique (featureColumn [[1], [1]] 0)).Sorted (· < ·)
    ∧ (∀ x : ℚ, x ∈ np_unique (featureColumn [[1], [1]] 0)
        ↔ x ∈ featureColumn [[1], [1]] 0)
    ∧ get_possible_splits [[1], [1]] 0 = midpoints (np_unique (featureColumn [[1], [1]] 0))
    ∧ (get_possible_splits [[1], [1]] 0 = []
       ∧ get_best_split_of_feature [[1], [1]] [0, 1] 0 = (-1, -1)
       ∧ determine_best_split_step [[1], [1]] [0, 1] ⟨0, none, none⟩ 0 = ⟨0, none, none⟩) := by
  obtain ⟨h1, h2, h3, h4⟩ := C4_candidate_cuts_spec [[1], [1]] [0, 1] 0 ⟨0, none, none⟩
  exact ⟨h1, h2, h3, h4 (by norm_num [np_unique, featureColumn, List.insertionSort,
    List.orderedInsert, dedupSorted])⟩

/-! ## Claim C7 -/

theorem sum_sq_dev_expand (l : List ℚ) (c : ℚ) :
    sum_sq_dev l c
      = (l.map (fun x => x ^ 2)).sum - 2 * c * l.sum + (l.length : ℚ) * c ^ 2 := by
  induction l with
  | nil => simp [sum_sq_dev]
  | cons a l ih =>
    have h : sum_sq_dev (a :: l) c = (a - c) ^ 2 + sum_sq_dev l c := by
      simp [sum_sq_dev]
    rw [h, ih]
    simp only [List.map_cons, List.sum_cons, List.length_cons]
    push_cast
    ring

theorem sum_sq_dev_mean_le (l : List ℚ) (c : ℚ) :
    sum_sq_dev l (np_mean l) ≤ sum_sq_dev l c := by
  by_cases hl : l = []
  · subst hl; simp [sum_sq_dev]
  · have hn : (0 : ℚ) < (l.length : ℚ) := by
      exact_mod_cast List.length_pos.mpr hl
    have hm : (l.length : ℚ) * np_mean l = l.sum := by
      rw [np_mean]
      field_simp
    rw [sum_sq_dev_expand, sum_sq_dev_expand, ← hm]
    nlinarith [mul_nonneg hn.le (sq_nonneg (np_mean l - c))]

theorem sum_map_filter_not {α : Type} (l : List α) (p : α → Bool) (g : α → ℚ) :
    ((l.filter p).map g).sum + ((l.filter (fun a => !(p a))).map g).sum = (l.map g).sum := by
  induction l with
  | nil => simp
  | cons a l ih =>
    cases hpa : p a <;> simp [List.filter_cons, hpa, List.sum_cons] <;> linarith [ih]

theorem length_filter_not {α : Type} (l : List α) (p : α → Bool) :
    (l.filter p).length + (l.filter (fun a => !(p a))).length = l.length := by
  induction l with
  | nil => simp
  | cons a l ih => cases hpa : p a <;> simp [List.filter_cons, hpa] <;> omega

theorem calculate_partition_error_eq_sum_sq_dev (t : List ℚ) :
    calculate_partition_error t = sum_sq_dev t (np_mean t) / (t.length : ℚ) := by
  simp [calculate_partition_error, np_mean, sum_sq_dev]

/-- Law-of-total-variance core: for any boolean split of a non-empty sample
list, the source's weighted after-split error is at most the partition
error of the whole list. -/
theorem after_split_error_le_partition_error {α : Type} (l : List α) (p : α → Bool)
    (g : α → ℚ) (hl : l ≠ []) :
    get_after_split_error ((l.filter p).map g) ((l.filter (fun a => !(p a))).map g) l.length
      ≤ calculate_partition_error (l.map g) := by
  have hn : (0 : ℚ) < (l.length : ℚ) := by
    exact_mod_cast List.length_pos.mpr hl
  have hn' : ((l.length : ℚ)) ≠ 0 := ne_of_gt hn
  set t1 := (l.filter p).map g with ht1
  set t2 := (l.filter (fun a => !(p a))).map g with ht2
  set m := np_mean (l.map g) with hm_def
  have hlen12 : (t1.length : ℚ) + (t2.length : ℚ) = (l.length : ℚ) := by
    rw [ht1, ht2]
    push_cast [List.length_map]
    exact_mod_cast length_filter_not l p
  have hA : ∀ t : List ℚ,
      ((t.length : ℚ) / (l.length : ℚ)) * calculate_partition_error t
        = sum_sq_dev t (np_mean t) / (l.length : ℚ) := by
    intro t
    rcases eq_or_ne t [] with h0 | hne
    · subst h0; simp [calculate_partition_error, np_mean, sum_sq_dev]
    · have htn : ((t.length : ℚ)) ≠ 0 := by
        have := List.length_pos.mpr hne
        positivity
      rw [calculate_partition_error_eq_sum_sq_dev, div_mul_div_comm,
        mul_comm (l.length : ℚ) (t.length : ℚ), mul_div_mul_left _ _ htn]
  have hB : 1 - (t1.length : ℚ) / (l.length : ℚ) = (t2.length : ℚ) / (l.length : ℚ) := by
    field_simp
    linarith [hlen12]
  have hunfold : get_after_split_error t1 t2 l.length
      = ((t1.length : ℚ) / (l.length : ℚ)) * calculate_partition_error t1
        + (1 - (t1.length : ℚ) / (l.length : ℚ)) * calculate_partition_error t2 := rfl
  have hD : sum_sq_dev t1 m + sum_sq_dev t2 m = sum_sq_dev (l.map g) m := by
    simp only [sum_sq_dev, ht1, ht2, List.map_map, Function.comp]
    exact sum_map_filter_not l p (fun a => (g a - m) ^ 2)
  calc get_after_split_error t1 t2 l.length
      = sum_sq_dev t1 (np_mean t1) / (l.length : ℚ)
        + sum_sq_dev t2 (np_mean t2) / (l.length : ℚ) := by
        rw [hunfold, hB, hA t1, hA t2]
    _ ≤ sum_sq_dev t1 m / (l.length : ℚ) + sum_sq_dev t2 m / (l.length : ℚ) := by
        have h1 := sum_sq_dev_mean_le t1 m
        have h2 := sum_sq_dev_mean_le t2 m
        gcongr
    _ = (sum_sq_dev t1 m + sum_sq_dev t2 m) / (l.length : ℚ) := by
        rw [div_add_div_same]
    _ = sum_sq_dev (l.map g) m / (l.length : ℚ) := by rw [hD]
    _ = calculate_partition_error (l.map g) := by
        rw [calculate_partition_error_eq_sum_sq_dev, List.length_map, hm_def]

theorem decide_lt_eq_not_decide_le (c x : ℚ) : decide (c < x) = !decide (x ≤ c) := by
  by_cases h : x ≤ c
  · simp [h, not_lt.mpr h]
  · simp [h, not_le.mp h]

/-- Claim C7: for every node with a non-empty sample set, the
sample-count-weighted sum of the two child errors produced by applying a
split — any axis-aligned `(feature, cut)` split and any oblique
hyperplane split — never exceeds the node's pre-split partition error. -/
theorem C7_split_error_monotone (features : List (List ℚ)) (target : List ℚ)
    (hne : target ≠ []) (hlen : features.length = target.length)
    (feature_idx : ℕ) (cut_val : ℚ) (split_vector : List ℚ) :
    get_after_split_error (split_samples features target feature_idx cut_val).2.1
        (split_samples features target feature_idx cut_val).2.2.2 target.length
      ≤ calculate_partition_error target
    ∧ get_after_split_error (oblique_split_samples features target split_vector).2.2.1
        (oblique_split_samples features target split_vector).2.2.2 target.length
      ≤ calculate_partition_error target := by
  have hzlen : (features.zip target).length = target.length := by
    rw [List.length_zip, hlen, min_self]
  have hznil : features.zip target ≠ [] := by
    intro h
    apply hne
    have h2 := congrArg List.length h
    rw [hzlen] at h2
    exact List.length_eq_zero.mp h2
  have hsnd : (features.zip target).map Prod.snd = target :=
    List.map_snd_zip features target (le_of_eq hlen.symm)
  constructor
  · have hfilter : (features.zip target).filter
          (fun rt => decide (cut_val < rt.1.getD feature_idx 0))
        = (features.zip target).filter
          (fun rt => !(decide (rt.1.getD feature_idx 0 ≤ cut_val))) :=
      List.filter_congr (fun a _ => decide_lt_eq_not_decide_le _ _)
    have h := after_split_error_le_partition_error (features.zip target)
        (fun rt => decide (rt.1.getD feature_idx 0 ≤ cut_val)) Prod.snd hznil
    rw [hzlen, hsnd] at h
    show get_after_split_error
        (((features.zip target).filter
            (fun rt => decide (rt.1.getD feature_idx 0 ≤ cut_val))).map Prod.snd)
        (((features.zip target).filter
            (fun rt => decide (cut_val < rt.1.getD feature_idx 0))).map Prod.snd)
        target.length
      ≤ calculate_partition_error target
    rw [hfilter]
    exact h
  · have hfilter : (features.zip target).filter
          (fun rt => decide (0 < check_config_position rt.1 split_vector))
        = (features.zip target).filter
          (fun rt => !(!(decide (0 < check_config_position rt.1 split_vector)))) :=
      List.filter_congr (fun a _ => (Bool.not_not _).symm)
    have h := after_split_error_le_partition_error (features.zip target)
        (fun rt => !(decide (0 < check_config_position rt.1 split_vector))) Prod.snd hznil
    rw [hzlen, hsnd] at h
    show get_after_split_error
        (((features.zip target).filter
            (fun rt => !(decide (0 < check_config_position rt.1 split_vector)))).map Prod.snd)
        (((features.zip target).filter
            (fun rt => decide (0 < check_config_position rt.1 split_vector))).map Prod.snd)
        target.length
      ≤ calculate_partition_error target
    rw [hfilter]
    exact h

/-- Witness for C7: the node with samples `([1], 0)` and `([2], 1)`, the
axis split at feature 0 / cut `3/2`, and the oblique split by hyperplane
`x ≤ 3/2`. -/
theorem C7_split_error_monotone_witness :
    get_after_split_error (split_samples [[1], [2]] [0, 1] 0 (3/2)).2.1
        (split_samples [[1], [2]] [0, 1] 0 (3/2)).2.2.2 ([0, 1] : List ℚ).length
      ≤ calculate_partition_error [0, 1]
    ∧ get_after_split_error (oblique_split_samples [[1], [2]] [0, 1] [1, 3/2]).2.2.1
        (oblique_split_samples [[1], [2]] [0, 1] [1, 3/2]).2.2.2 ([0, 1] : List ℚ).length
      ≤ calculate_partition_error [0, 1] :=
  C7_split_error_monotone [[1], [2]] [0, 1] (by simp) (by simp) 0 (3/2) [1, 3/2]

/-! ## Claim C10 -/

theorem popMin_perm (q : List QEntry) (e : QEntry) (rest : List QEntry)
    (h : popMin q = some (e, rest)) : q.Perm (e :: rest) := by
  induction q generalizing e rest with
  | nil => simp [popMin] at h
  | cons a q ih =>
    rw [popMin] at h
    cases hq : popMin q with
    | none =>
      rw [hq] at h
      cases h
      have hq' : q = [] := by
        cases q with
        | nil => rfl
        | cons b q' => exact absurd hq (popMin_cons_ne_none b q')
      subst hq'
      exact List.Perm.refl _
    | some mr =>
      obtain ⟨m, rest'⟩ := mr
      rw [hq] at h
      dsimp at h
      by_cases hle : entryLE a m
      · rw [if_pos hle] at h
        cases h
        exact List.Perm.refl _
      · rw [if_neg hle] at h
        cases h
        have hperm := ih _ _ hq
        exact List.Perm.trans (hperm.cons a) (List.Perm.swap e a rest')

theorem popLoopAux_spec (md : ℕ) (fuel : ℕ) :
    ∀ (cur : Node) (q : List QEntry) (n : Node) (rest : List QEntry),
      popLoopAux md fuel cur q = (n, rest) →
      (n = cur ∨ ∃ e ∈ q, n = e.node) ∧ ∀ e ∈ rest, e ∈ q := by
  induction fuel with
  | zero =>
    intro cur q n rest h
    rw [popLoopAux] at h
    cases h
    exact ⟨Or.inl rfl, fun e he => he⟩
  | succ fuel ih =>
    intro cur q n rest h
    rw [popLoopAux] at h
    by_cases hstale : nodeStaleOrMaxDepth md cur
    · rw [if_pos hstale] at h
      cases hq : popMin q with
      | none =>
        rw [hq] at h
        cases h
        exact ⟨Or.inl rfl, fun e he => he⟩
      | some er =>
        obtain ⟨e0, rest0⟩ := er
        rw [hq] at h
        dsimp at h
        have hperm := popMin_perm q e0 rest0 hq
        obtain ⟨h1, h2⟩ := ih e0.node rest0 n rest h
        constructor
        · rcases h1 with h1 | ⟨e, he, hn⟩
          · exact Or.inr ⟨e0, hperm.symm.subset (by simp), h1⟩
          · exact Or.inr ⟨e, hperm.symm.subset (List.mem_cons_of_mem _ he), hn⟩
        · intro e he
          exact hperm.symm.subset (List.mem_cons_of_mem _ (h2 e he))
    · rw [if_neg hstale] at h
      cases h
      exact ⟨Or.inl rfl, fun e he => he⟩

theorem determine_node_to_sample_spec (md : ℕ) (q : List QEntry) (n : Node)
    (rest : List QEntry) (h : determine_node_to_sample md q = Except.ok (n, rest)) :
    (∃ e ∈ q, n = e.node) ∧ ∀ e ∈ rest, e ∈ q := by
  rw [determine_node_to_sample] at h
  cases hq : popMin q with
  | none => rw [hq] at h; cases h
  | some er =>
    obtain ⟨e0, rest0⟩ := er
    rw [hq] at h
    dsimp at h
    have hpl : popLoopAux md rest0.length e0.node rest0 = (n, rest) := by
      cases hres : popLoop md e0.node rest0 with
      | mk n' rest' =>
        rw [popLoop] at hres
        rw [popLoop, hres] at h
        cases h
        exact hres
    have hperm := popMin_perm q e0 rest0 hq
    obtain ⟨h1, h2⟩ := popLoopAux_spec md rest0.length e0.node rest0 n rest hpl
    constructor
    · rcases h1 with h1 | ⟨e, he, hn⟩
      · exact ⟨e0, hperm.symm.subset (by simp), h1⟩
      · exact ⟨e, hperm.symm.subset (List.mem_cons_of_mem _ he), hn⟩
    · intro e he
      exact hperm.symm.subset (List.mem_cons_of_mem _ (h2 e he))

theorem sysStep_queue_idxs (md : ℕ) (s s' : SysState) (h : SysStep md s s') :
    s.node_count ≤ s'.node_count
    ∧ ∀ i ∈ queueIdxs s'.leaf_nodes, i ∈ queueIdxs s.leaf_nodes ∨ s.node_count ≤ i := by
  cases h with
  | select n rest hdet =>
    refine ⟨le_refl _, ?_⟩
    intro i hi
    left
    obtain ⟨-, h2⟩ := determine_node_to_sample_spec md s.leaf_nodes n rest hdet
    simp only [queueIdxs, List.mem_map] at hi ⊢
    obtain ⟨e, he, rfl⟩ := hi
    exact ⟨e, h2 e he, rfl⟩
  | split ls rs ln rn =>
    refine ⟨Nat.le_add_right s.node_count 2, ?_⟩
    intro i hi
    simp only [queueIdxs, List.mem_map, List.mem_append, List.mem_cons,
      List.mem_singleton] at hi
    rcases hi with ⟨e, he | he, rfl⟩
    · exact Or.inl (List.mem_map.mpr ⟨e, he, rfl⟩)
    · rcases he with rfl | rfl | h0
      · exact Or.inr (le_refl _)
      · exact Or.inr (Nat.le_add_right s.node_count 1)
      · cases h0

theorem sysSteps_queue_idxs (md : ℕ) (s s' : SysState) (h : SysSteps md s s') :
    s.node_count ≤ s'.node_count
    ∧ ∀ i ∈ queueIdxs s'.leaf_nodes, i ∈ queueIdxs s.leaf_nodes ∨ s.node_count ≤ i := by
  induction h with
  | refl => exact ⟨le_refl _, fun i hi => Or.inl hi⟩
  | tail hab hbc ih =>
    obtain ⟨ih1, ih2⟩ := ih
    obtain ⟨h1, h2⟩ := sysStep_queue_idxs md _ _ hbc
    refine ⟨le_trans ih1 h1, ?_⟩
    intro i hi
    rcases h2 i hi with hi' | hge
    · exact ih2 i hi'
    · exact Or.inr (le_trans ih1 hge)

theorem sysSteps_entry_idx (md : ℕ) (s s' : SysState) (h : SysSteps md s s')
    (hq : ∀ e ∈ s.leaf_nodes, e.node.idx = e.idx) :
    ∀ e ∈ s'.leaf_nodes, e.node.idx = e.idx := by
  induction h with
  | refl => exact hq
  | tail hab hbc ih =>
    intro e he
    cases hbc with
    | select n rest hdet =>
      obtain ⟨-, h2⟩ := determine_node_to_sample_spec md _ n rest hdet
      exact ih e (h2 e he)
    | split ls rs ln rn =>
      rcases List.mem_append.mp he with h1 | h2
      · exact ih e h1
      · rcases List.mem_cons.mp h2 with rfl | h2
        · rfl
        · rcases List.mem_cons.mp h2 with rfl | h0
          · rfl
          · cases h0

/-- Claim C10: once a node id has left the active queue (in particular,
once its entry has been popped by `select_next`) while `node_count` has
already passed it, no later sequence of tree operations ever re-inserts it
— the only pushes are the two fresh children of a `_split_node`, whose ids
are allocated from the strictly increasing `node_count` — and therefore no
later `select_next` returns a node with that id. -/
theorem C10_popped_leaf_never_requeued (md : ℕ) (s s' : SysState)
    (hsteps : SysSteps md s s')
    (hq : ∀ e ∈ s.leaf_nodes, e.node.idx = e.idx)
    (i : ℕ) (hlt : i < s.node_count) (hout : i ∉ queueIdxs s.leaf_nodes) :
    i ∉ queueIdxs s'.leaf_nodes
    ∧ ∀ n rest, determine_node_to_sample md s'.leaf_nodes = Except.ok (n, rest) →
        n.idx ≠ i := by
  obtain ⟨h1, h2⟩ := sysSteps_queue_idxs md s s' hsteps
  have hnotin : i ∉ queueIdxs s'.leaf_nodes := by
    intro hin
    rcases h2 i hin with h | h
    · exact hout h
    · omega
  refine ⟨hnotin, ?_⟩
  intro n rest hdet hni
  obtain ⟨⟨e, he, hn⟩, -⟩ := determine_node_to_sample_spec md _ n rest hdet
  have hidx := sysSteps_entry_idx md s s' hsteps hq e he
  apply hnotin
  simp only [queueIdxs, List.mem_map]
  exact ⟨e, he, by rw [← hidx, ← hn, hni]⟩

/-- Witness for C10: from the post-construction Scenario-A state, one
split step pushes children 1 and 2; the root id 0 (below `node_count`,
absent from the queue) stays out of the queue and is never selected. -/
theorem C10_popped_leaf_never_requeued_witness :
    0 ∉ queueIdxs sysStateA1.leaf_nodes
    ∧ ∀ n rest, determine_node_to_sample 5 sysStateA1.leaf_nodes = Except.ok (n, rest) →
        n.idx ≠ 0 :=
  C10_popped_leaf_never_requeued 5 sysStateA sysStateA1
    (Relation.ReflTransGen.single (SysStep.split sysStateA 0 0 nodeMaxDepth nodeMaxDepth))
    (by intro e he; simp [sysStateA] at he)
    0 (by norm_num [sysStateA]) (by simp [queueIdxs, sysStateA])
